import Mathlib

set_option maxHeartbeats 1000000

/-!
Shallow embedding of the `windu` disk-usage explorer (`src/__main__.py`)
and verification of its specification.

Modelling conventions:
* Python dict nodes `{'name', 'type', 'size', 'children', 'parent', 'is_executable'}`
  become the inductive `TreeNode`.  File nodes carry `children = []` (the Python
  dict simply has no `'children'` key, and every read uses `.get('children', [])`).
  The `parent` back-reference and the never-read `'expanded'` flag are omitted:
  no claim and no code path read them except the render prefix glyph.
* `ScanState` (the mutex-guarded progress record) becomes a plain structure;
  because every method runs entirely inside `with self.lock`, a concurrent
  history is exactly a sequence of atomic method calls, modelled by folding
  `ScanState.update` over a call trace.
* Python floats in `format_bytes` only ever divide by 1024, which is exact in
  binary floating point (for integers below 2^53), so the value after `k`
  divisions is exactly `n / 1024^k`; we keep the pair `(n, k)` and do the
  `%6.2f` rendering (round-half-even to two decimals, right-aligned to width 6)
  with exact integer arithmetic.
* The curses navigator's mutable aliased tree (the `history` deque holds
  references into one shared structure and `children.sort` mutates in place)
  is modelled as a root tree plus a path of child indices; sorting the current
  node's children rewrites the tree functionally at that path, which is
  observationally the in-place mutation seen through every alias.
-/

inductive NodeKind where
  | directory
  | file
deriving DecidableEq

inductive TreeNode where
  | mk (name : String) (kind : NodeKind) (size : Nat)
       (is_executable : Bool) (children : List TreeNode)

def TreeNode.name : TreeNode → String
  | .mk n _ _ _ _ => n

def TreeNode.kind : TreeNode → NodeKind
  | .mk _ k _ _ _ => k

def TreeNode.size : TreeNode → Nat
  | .mk _ _ s _ _ => s

def TreeNode.is_executable : TreeNode → Bool
  | .mk _ _ _ e _ => e

def TreeNode.children : TreeNode → List TreeNode
  | .mk _ _ _ _ cs => cs

/-- Replace the children list, keeping all other fields (the in-place
`node['children'] = ...` / `children.sort(...)` mutation). -/
def setChildren : TreeNode → List TreeNode → TreeNode
  | .mk n k s e _, cs => .mk n k s e cs

@[simp] theorem setChildren_name (t : TreeNode) (cs : List TreeNode) :
    (setChildren t cs).name = t.name := by cases t; rfl

@[simp] theorem setChildren_kind (t : TreeNode) (cs : List TreeNode) :
    (setChildren t cs).kind = t.kind := by cases t; rfl

@[simp] theorem setChildren_size (t : TreeNode) (cs : List TreeNode) :
    (setChildren t cs).size = t.size := by cases t; rfl

@[simp] theorem setChildren_is_executable (t : TreeNode) (cs : List TreeNode) :
    (setChildren t cs).is_executable = t.is_executable := by cases t; rfl

@[simp] theorem setChildren_children (t : TreeNode) (cs : List TreeNode) :
    (setChildren t cs).children = cs := by cases t; rfl

/-! ## ScanState (`class ScanState`, src/__main__.py lines 7-44)

Every method body executes under `self.lock`, so each is one atomic step. -/

structure ScanState where
  total_items : Nat
  scanned_items : Nat
  dir_count : Nat
  file_count : Nat
  total_size : Nat
  current_path : String
  done : Bool
  tree : Option TreeNode

/-- `ScanState.__init__`: all counters zero, empty path, not done, no tree. -/
def ScanState.init : ScanState :=
  { total_items := 0, scanned_items := 0, dir_count := 0, file_count := 0
    total_size := 0, current_path := "", done := false, tree := none }

/-- `ScanState.update(path, is_file, size=0)` (lines 20-28). -/
def ScanState.update (s : ScanState) (path : String) ( is_file : Bool)
    (size : Nat) : ScanState :=
  if is_file then
    { s with scanned_items := s.scanned_items + 1, current_path := path
             file_count := s.file_count + 1, total_size := s.total_size + size }
  else
    { s with scanned_items := s.scanned_items + 1, current_path := path
             dir_count := s.dir_count + 1 }

/-- `ScanState.get_state` (lines 30-35): a consistent snapshot of all fields. -/
def ScanState.get_state (s : ScanState) :
    Nat × Nat × Nat × Nat × Nat × String × Bool :=
  (s.total_items, s.scanned_items, s.dir_count, s.file_count,
   s.total_size, s.current_path, s.done)

/-- `ScanState.set_total_items` (lines 37-39). -/
def ScanState.set_total_items (s : ScanState) (total : Nat) : ScanState :=
  { s with total_items := total }

/-- `ScanState.set_done(tree)` (lines 41-44): sets `done` and stores the
argument over whatever tree reference was there before. -/
def ScanState.set_done (s : ScanState) (tree : Option TreeNode) : ScanState :=
  { s with done := true, tree := tree }

/-- A history of `update` calls (the only mutating operation during the build
pass); each entry is `(path, is_file, size)`.  Because each call holds the
lock, any interleaving with `get_state` reads is a fold of this list. -/
def applyTrace (calls : List (String × Bool × Nat)) (s : ScanState) : ScanState :=
  calls.foldl (fun st c => st.update c.1 c.2.1 c.2.2) s

/-! ## format_bytes (lines 46-54)

`format_bytes` divides a Python float by 1024 up to four times.  Division by
1024 only decrements the binary exponent, so for integer inputs below 2^53 the
float is exactly `n / 1024^k`; `fmtDiv n k` renders that exact rational the way
`f"{x:6.2f}"` does: round to two decimals (ties to even), right-align in a
field of width at least 6. -/

/-- Left-pad with spaces to width 6 (the `6` in `f"{size:6.2f}"`). -/
def padLeft6 (s : String) : String :=
  if s.length < 6 then String.mk (List.replicate (6 - s.length) ' ') ++ s else s

/-- Render `n / 1024^k` (an exact nonnegative rational) with two decimal
places, round-half-even, padded to width 6 — exactly `f"{n/1024**k:6.2f}"`. -/
def fmtDiv (n k : Nat) : String :=
  let d := 1024 ^ k
  let x := n * 100
  let q := x / d
  let r := x % d
  let c := if 2 * r < d then q
           else if d < 2 * r then q + 1
           else if q % 2 = 0 then q else q + 1
  let ip := c / 100
  let fp := c % 100
  padLeft6 (toString ip ++ "." ++ (if fp < 10 then "0" ++ toString fp else toString fp))

/-- `format_bytes(size)` with the source's loop over `['KB','MB','GB','TB']`
unrolled: after the TB division the loop ends, and the `PB` return reuses the
TB-scaled value (it does not divide a fifth time). -/
def format_bytes (size : Nat) : String :=
  if size < 1024 then toString size ++ " B"
  else if size < 1024 ^ 2 then fmtDiv size 1 ++ " KB"
  else if size < 1024 ^ 3 then fmtDiv size 2 ++ " MB"
  else if size < 1024 ^ 4 then fmtDiv size 3 ++ " GB"
  else if size < 1024 ^ 5 then fmtDiv size 4 ++ " TB"
  else fmtDiv size 4 ++ " PB"

/-! ## Progress fraction (`draw_dialog`, line 129)

`progress = (scanned_items / total_items) if total_items > 0 else 1`.
Division is wrapped in an explicit checked divide so that "never divides by
zero" is a provable statement, not a convention of `ℚ`. -/

/-- Division that refuses a zero denominator (Python raises on `x / 0`). -/
def checkedDiv (a b : Nat) : Option ℚ :=
  if b = 0 then none else some ((a : ℚ) / (b : ℚ))

/-- The progress fraction computed each tick of the dialog loop. -/
def progressOf (scanned total : Nat) : Option ℚ :=
  if 0 < total then checkedDiv scanned total else some 1

/-! ## Tree builder (`scanner_worker`, lines 56-107)

`calculate_dir_size` (lines 91-97) mutates directory sizes bottom-up and
returns the node's (new) size; we return the rewritten node together with the
returned size.  `sort_children_recursively` (lines 100-106) sorts each
directory's children by size descending (Python's `list.sort` is stable, also
with `reverse=True`: equal elements keep their original order), then recurses
into every child. -/

/-- `is_executable = f.lower().endswith('.exe')` (line 82). -/
def is_executable_of (f : String) : Bool :=
  f.toLower.endsWith ".exe"

/-- One iteration of the `for f in files:` loop of the build pass
(lines 78-88).  `statSize` is the outcome of `os.path.getsize`: `some size`
on success, `none` when it raises `OSError`.  On success a file node is
created and appended and the entry is recorded; on failure only
`state.update(file_path, is_file=True, size=0)` runs — the `try` block is
aborted before the node is constructed, so nothing is appended. -/
def buildFileEntry (file_path f : String) (statSize : Option Nat)
    (parent_children : List TreeNode) (st : ScanState) :
    List TreeNode × ScanState :=
  match statSize with
  | some size =>
      (parent_children ++ [TreeNode.mk f .file size (is_executable_of f) []],
       st.update file_path true size)
  | none => (parent_children, st.update file_path true 0)

mutual
/-- `calculate_dir_size` (lines 91-95): files return their size unchanged,
directories overwrite `size` with the sum of their children's computed sizes. -/
def calculate_dir_size : TreeNode → TreeNode × Nat
  | .mk n .file s e cs => (.mk n .file s e cs, s)
  | .mk n .directory _ e cs =>
      let p := calculate_children cs
      (.mk n .directory p.2 e p.1, p.2)
/-- `sum(calculate_dir_size(child) for child in node.get('children', []))`. -/
def calculate_children : List TreeNode → List TreeNode × Nat
  | [] => ([], 0)
  | c :: cs =>
      let r := calculate_dir_size c
      let rs := calculate_children cs
      (r.1 :: rs.1, r.2 + rs.2)
end

mutual
/-- All nodes of a tree (the node itself and, transitively, its children). -/
def allNodes : TreeNode → List TreeNode
  | .mk n k s e cs => .mk n k s e cs :: allNodesList cs
def allNodesList : List TreeNode → List TreeNode
  | [] => []
  | c :: cs => allNodes c ++ allNodesList cs
end

mutual
/-- Sum of the sizes of all transitively contained file nodes. -/
def totalFileSize : TreeNode → Nat
  | .mk _ .file s _ _ => s
  | .mk _ .directory _ _ cs => totalFileSizeList cs
def totalFileSizeList : List TreeNode → Nat
  | [] => 0
  | c :: cs => totalFileSize c + totalFileSizeList cs
end

/-- Well-formedness of trees the build pass produces: file nodes have no
children (a Python file dict has no `'children'` key at all). -/
def WFTree (t : TreeNode) : Prop :=
  ∀ u ∈ allNodes t, u.kind = .file → u.children = []

/-- The comparison used by `children.sort(key=lambda x: x['size'], reverse=desc)`:
`x` (the earlier element) stays before `y` exactly when this holds, which is
what a stable sort by `size` (descending when `desc`) does. -/
def keyBefore (desc : Bool) (x y : TreeNode) : Bool :=
  if desc then decide (y.size ≤ x.size) else decide (x.size ≤ y.size)

/-- Stable insertion of `x` (earlier in the original order) into an
already-sorted suffix. -/
def insertBy (desc : Bool) (x : TreeNode) : List TreeNode → List TreeNode
  | [] => [x]
  | y :: ys => if keyBefore desc x y then x :: y :: ys else y :: insertBy desc x ys

/-- A stable sort by `size` (descending when `desc`); pointwise equal to
Python's stable `list.sort(key=lambda x: x['size'], reverse=desc)`, whose
output is uniquely determined by the key and stability. -/
def sortBySize (desc : Bool) : List TreeNode → List TreeNode
  | [] => []
  | x :: xs => insertBy desc x (sortBySize desc xs)

theorem insertBy_perm (desc : Bool) (x : TreeNode) (l : List TreeNode) :
    (insertBy desc x l).Perm (x :: l) := by
  induction l with
  | nil => simp [insertBy]
  | cons y ys ih =>
    simp only [insertBy]
    split
    · exact List.Perm.refl _
    · exact ((ih.cons y).trans (List.Perm.swap x y ys))

theorem sortBySize_perm (desc : Bool) (l : List TreeNode) :
    (sortBySize desc l).Perm l := by
  induction l with
  | nil => simp [sortBySize]
  | cons x xs ih =>
    exact (insertBy_perm desc x (sortBySize desc xs)).trans (ih.cons x)

theorem sizeOf_sortBySize (desc : Bool) (l : List TreeNode) :
    sizeOf (sortBySize desc l) = sizeOf l :=
  (sortBySize_perm desc l).sizeOf_eq_sizeOf

theorem length_sortBySize (desc : Bool) (l : List TreeNode) :
    (sortBySize desc l).length = l.length :=
  (sortBySize_perm desc l).length_eq

mutual
/-- `sort_children_recursively` (lines 100-106): sort this directory's
children by size descending, then recurse into every child (a no-op on
files, which keep their — empty — children untouched). -/
def sort_children_recursively : TreeNode → TreeNode
  | .mk n k s e cs =>
      if k = .directory then
        .mk n k s e (sortList (sortBySize true cs))
      else .mk n k s e cs
termination_by t => sizeOf t
decreasing_by
  simp only [TreeNode.mk.sizeOf_spec]
  rw [sizeOf_sortBySize]
  omega
/-- `for child in node['children']: sort_children_recursively(child)`. -/
def sortList : List TreeNode → List TreeNode
  | [] => []
  | c :: cs => sort_children_recursively c :: sortList cs
termination_by l => sizeOf l
decreasing_by
  all_goals (simp; try omega)
end

/-- Structural induction over `TreeNode` with the inductive hypothesis for
every child. -/
theorem treeInd {P : TreeNode → Prop}
    (h : ∀ n k s e cs, (∀ c ∈ cs, P c) → P (.mk n k s e cs)) (t : TreeNode) : P t := by
  obtain ⟨n, k, s, e, cs⟩ := t
  exact h n k s e cs (fun c hc => treeInd h c)
termination_by sizeOf t
decreasing_by
  have := List.sizeOf_lt_of_mem hc
  simp only [TreeNode.mk.sizeOf_spec]
  omega

/-! ## Lemmas about the aggregate pass -/

theorem mem_allNodesList {u : TreeNode} {cs : List TreeNode} :
    u ∈ allNodesList cs ↔ ∃ c ∈ cs, u ∈ allNodes c := by
  induction cs with
  | nil => simp [allNodesList]
  | cons c cs ih => simp [allNodesList, ih]

theorem self_mem_allNodes (t : TreeNode) : t ∈ allNodes t := by
  obtain ⟨n, k, s, e, cs⟩ := t
  simp [allNodes]

theorem WFTree_child {n : String} {k : NodeKind} {s : Nat} {e : Bool}
    {cs : List TreeNode} {c : TreeNode}
    (h : WFTree (.mk n k s e cs)) (hc : c ∈ cs) : WFTree c := by
  intro u hu
  exact h u (by simp [allNodes, mem_allNodesList]; exact Or.inr ⟨c, hc, hu⟩)

theorem calculate_dir_size_snd (t : TreeNode) :
    (calculate_dir_size t).2 = (calculate_dir_size t).1.size := by
  obtain ⟨n, k, s, e, cs⟩ := t
  cases k <;> simp [calculate_dir_size, TreeNode.size]

theorem calculate_children_fst (cs : List TreeNode) :
    (calculate_children cs).1 = cs.map (fun c => (calculate_dir_size c).1) := by
  induction cs with
  | nil => simp [calculate_children]
  | cons c cs ih => simp [calculate_children, ih]

theorem calculate_children_snd (cs : List TreeNode) :
    (calculate_children cs).2 = ((calculate_children cs).1.map TreeNode.size).sum := by
  induction cs with
  | nil => simp [calculate_children]
  | cons c cs ih => simp [calculate_children, ih, calculate_dir_size_snd]

theorem calculate_dir_size_totalFileSize (t : TreeNode) :
    (calculate_dir_size t).1.size = totalFileSize t := by
  induction t using treeInd with
  | h n k s e cs ih =>
    cases k with
    | file => simp [calculate_dir_size, TreeNode.size, totalFileSize]
    | directory =>
      simp only [calculate_dir_size, TreeNode.size, totalFileSize]
      induction cs with
      | nil => simp [calculate_children, totalFileSizeList]
      | cons c cs ih2 =>
        simp only [calculate_children, totalFileSizeList]
        rw [calculate_dir_size_snd c, ih c (by simp),
            ih2 (fun c hc => ih c (by simp [hc]))]

theorem totalFileSize_calculate (t : TreeNode) :
    totalFileSize (calculate_dir_size t).1 = totalFileSize t := by
  induction t using treeInd with
  | h n k s e cs ih =>
    cases k with
    | file => simp [calculate_dir_size]
    | directory =>
      simp only [calculate_dir_size, totalFileSize, calculate_children_fst]
      induction cs with
      | nil => simp [totalFileSizeList]
      | cons c cs ih2 =>
        simp only [List.map_cons, totalFileSizeList]
        rw [ih c (by simp), ih2 (fun c hc => ih c (by simp [hc]))]

/-- C1: for every Directory node in the tree produced by the builder, after
the aggregate pass (`calculate_dir_size`) and before any sort or navigation,
its `size` equals the exact sum of the sizes of all transitively contained
File nodes, and equivalently the sum of its direct children's sizes.  (Files
whose stat failed were never linked into the tree, so they contribute 0 to
both sides.) -/
theorem spec_c1_aggregate_sizes :
    ∀ t : TreeNode, WFTree t →
      ∀ u ∈ allNodes (calculate_dir_size t).1, u.kind = .directory →
        u.size = (u.children.map TreeNode.size).sum ∧ u.size = totalFileSize u := by
  intro t
  induction t using treeInd with
  | h n k s e cs ih =>
    intro hwf u hu hk
    cases k with
    | file =>
      have hcs : cs = [] := hwf _ (self_mem_allNodes _) rfl
      subst hcs
      simp only [calculate_dir_size, allNodes, allNodesList,
        List.mem_singleton] at hu
      subst hu
      simp [TreeNode.kind] at hk
    | directory =>
      simp only [calculate_dir_size, allNodes, List.mem_cons] at hu
      rcases hu with rfl | hu
      · constructor
        · simp only [TreeNode.size, TreeNode.children]
          exact calculate_children_snd cs
        · have h1 := calculate_dir_size_totalFileSize (TreeNode.mk n .directory s e cs)
          have h2 := totalFileSize_calculate (TreeNode.mk n .directory s e cs)
          simp only [calculate_dir_size] at h1 h2
          rw [h1, h2]
      · rw [mem_allNodesList] at hu
        obtain ⟨c', hc', hu⟩ := hu
        rw [calculate_children_fst, List.mem_map] at hc'
        obtain ⟨c, hc, rfl⟩ := hc'
        exact ih c hc (WFTree_child hwf hc) u hu hk

/-- The spec's aggregation scenario: root contains directory `A` (holding
`big.txt`, 2000 bytes) and `small.txt` (10 bytes). -/
def c1tree : TreeNode :=
  .mk "root" .directory 0 false
    [.mk "A" .directory 0 false [.mk "big.txt" .file 2000 false []],
     .mk "small.txt" .file 10 false []]

theorem spec_c1_aggregate_sizes_witness :
    WFTree c1tree ∧
      ((calculate_dir_size c1tree).1.size
          = (((calculate_dir_size c1tree).1.children).map TreeNode.size).sum ∧
       (calculate_dir_size c1tree).1.size = totalFileSize (calculate_dir_size c1tree).1) := by
  have hwf : WFTree c1tree := by
    simp [WFTree, c1tree, allNodes, allNodesList, TreeNode.kind, TreeNode.children]
  exact ⟨hwf, spec_c1_aggregate_sizes c1tree hwf _ (self_mem_allNodes _) rfl⟩

/-! ## Lemmas about the sort pass -/

theorem mem_insertBy {z x : TreeNode} {desc : Bool} {l : List TreeNode} :
    z ∈ insertBy desc x l ↔ z = x ∨ z ∈ l := by
  rw [(insertBy_perm desc x l).mem_iff, List.mem_cons]

theorem mem_sortBySize {z : TreeNode} {desc : Bool} {l : List TreeNode} :
    z ∈ sortBySize desc l ↔ z ∈ l :=
  (sortBySize_perm desc l).mem_iff

theorem sortList_eq_map (cs : List TreeNode) :
    sortList cs = cs.map sort_children_recursively := by
  induction cs with
  | nil => simp [sortList]
  | cons c cs ih => simp [sortList, ih]

theorem sort_children_recursively_size (t : TreeNode) :
    (sort_children_recursively t).size = t.size := by
  obtain ⟨n, k, s, e, cs⟩ := t
  cases k <;> simp [sort_children_recursively, TreeNode.size]

theorem sort_children_recursively_kind (t : TreeNode) :
    (sort_children_recursively t).kind = t.kind := by
  obtain ⟨n, k, s, e, cs⟩ := t
  cases k <;> simp [sort_children_recursively, TreeNode.kind]

theorem insertBy_sorted (x : TreeNode) {l : List TreeNode}
    (hl : l.Pairwise (fun a b => b.size ≤ a.size)) :
    (insertBy true x l).Pairwise (fun a b => b.size ≤ a.size) := by
  induction l with
  | nil => simp [insertBy]
  | cons y ys ih =>
    rcases List.pairwise_cons.mp hl with ⟨hy, hys⟩
    by_cases h : y.size ≤ x.size
    · rw [show insertBy true x (y :: ys) = x :: y :: ys by
        simp [insertBy, keyBefore, h]]
      refine List.pairwise_cons.mpr ⟨?_, hl⟩
      intro z hz
      rcases List.mem_cons.mp hz with rfl | hz
      · exact h
      · exact le_trans (hy z hz) h
    · rw [show insertBy true x (y :: ys) = y :: insertBy true x ys by
        simp [insertBy, keyBefore, h]]
      refine List.pairwise_cons.mpr ⟨?_, ih hys⟩
      intro z hz
      rcases mem_insertBy.mp hz with rfl | hz
      · omega
      · exact hy z hz

theorem sortBySize_sorted_desc (l : List TreeNode) :
    (sortBySize true l).Pairwise (fun a b => b.size ≤ a.size) := by
  induction l with
  | nil => simp [sortBySize]
  | cons x xs ih => exact insertBy_sorted x ih

theorem insertBy_filter (x : TreeNode) (l : List TreeNode) (v : Nat) :
    (insertBy true x l).filter (fun c => c.size == v)
      = if x.size = v then x :: l.filter (fun c => c.size == v)
        else l.filter (fun c => c.size == v) := by
  induction l with
  | nil => by_cases hx : x.size = v <;> simp [insertBy, hx]
  | cons y ys ih =>
    by_cases h : y.size ≤ x.size
    · rw [show insertBy true x (y :: ys) = x :: y :: ys by
        simp [insertBy, keyBefore, h]]
      by_cases hx : x.size = v <;> simp [hx, List.filter_cons]
    · rw [show insertBy true x (y :: ys) = y :: insertBy true x ys by
        simp [insertBy, keyBefore, h]]
      by_cases hx : x.size = v
      · have hy : ¬ y.size = v := by omega
        simp [List.filter_cons, hx, hy, ih]
      · by_cases hy : y.size = v <;> simp [List.filter_cons, hx, hy, ih]

theorem sortBySize_filter (l : List TreeNode) (v : Nat) :
    (sortBySize true l).filter (fun c => c.size == v)
      = l.filter (fun c => c.size == v) := by
  induction l with
  | nil => simp [sortBySize]
  | cons x xs ih =>
    rw [show sortBySize true (x :: xs) = insertBy true x (sortBySize true xs) from rfl,
        insertBy_filter, ih]
    by_cases hx : x.size = v <;> simp [List.filter_cons, hx]

/-- C2: after the builder's sort pass (`sort_children_recursively`), every
Directory node's children are in descending order of `size` (adjacent pairs
satisfy `children[i].size >= children[i+1].size`), the sort is applied
recursively at every depth, and it is stable: for every size value, the
children of that size appear in exactly their original discovery order
(stated as invariance of the size-`v` filter against the pre-sort order). -/
theorem spec_c2_sorted_stable :
    (∀ t : TreeNode, WFTree t →
       ∀ u ∈ allNodes (sort_children_recursively t), u.kind = .directory →
         List.Chain' (fun a b => b.size ≤ a.size) u.children)
    ∧ (∀ u : TreeNode, u.kind = .directory → ∀ v : Nat,
        ((sort_children_recursively u).children).filter (fun c => c.size == v)
          = (u.children.map sort_children_recursively).filter (fun c => c.size == v)) := by
  constructor
  · intro t
    induction t using treeInd with
    | h n k s e cs ih =>
      intro hwf u hu hk
      cases k with
      | file =>
        have hcs : cs = [] := hwf _ (self_mem_allNodes _) rfl
        subst hcs
        simp only [sort_children_recursively, reduceCtorEq, if_false,
          allNodes, allNodesList, List.mem_singleton] at hu
        subst hu
        simp [TreeNode.kind] at hk
      | directory =>
        rw [show sort_children_recursively (.mk n .directory s e cs)
              = .mk n .directory s e (sortList (sortBySize true cs)) by
            simp [sort_children_recursively]] at hu
        simp only [allNodes, List.mem_cons] at hu
        rcases hu with rfl | hu
        · simp only [TreeNode.children, sortList_eq_map]
          refine List.Pairwise.chain' ?_
          rw [List.pairwise_map]
          refine (sortBySize_sorted_desc cs).imp ?_
          intro a b hab
          rw [sort_children_recursively_size, sort_children_recursively_size]
          exact hab
        · rw [mem_allNodesList] at hu
          obtain ⟨c', hc', hu⟩ := hu
          rw [sortList_eq_map, List.mem_map] at hc'
          obtain ⟨c, hc, rfl⟩ := hc'
          rw [mem_sortBySize] at hc
          exact ih c hc (WFTree_child hwf hc) u hu hk
  · intro u hk v
    obtain ⟨n, k, s, e, cs⟩ := u
    simp only [TreeNode.kind] at hk
    subst hk
    rw [show sort_children_recursively (.mk n .directory s e cs)
          = .mk n .directory s e (sortList (sortBySize true cs)) by
        simp [sort_children_recursively]]
    simp only [TreeNode.children, sortList_eq_map]
    rw [List.filter_map, List.filter_map]
    have hp : ((fun c : TreeNode => c.size == v) ∘ sort_children_recursively)
        = (fun c : TreeNode => c.size == v) := by
      funext c
      simp [Function.comp, sort_children_recursively_size]
    rw [hp, sortBySize_filter]

/-- A builder-shaped tree whose root holds a file of size 10 and a directory
of size 5 (with one file inside), used to instantiate the sort theorems. -/
def c2tree : TreeNode :=
  .mk "root" .directory 15 false
    [.mk "b.txt" .file 10 false [],
     .mk "A" .directory 5 false [.mk "x" .file 5 false []]]

theorem spec_c2_sorted_stable_witness :
    WFTree c2tree ∧
    List.Chain' (fun a b => b.size ≤ a.size) (sort_children_recursively c2tree).children ∧
    ((sort_children_recursively c2tree).children).filter (fun c => c.size == 5)
      = (c2tree.children.map sort_children_recursively).filter (fun c => c.size == 5) := by
  have hwf : WFTree c2tree := by
    simp [WFTree, c2tree, allNodes, allNodesList, TreeNode.kind, TreeNode.children]
  refine ⟨hwf, ?_, spec_c2_sorted_stable.2 c2tree rfl 5⟩
  refine spec_c2_sorted_stable.1 c2tree hwf _ (self_mem_allNodes _) ?_
  rw [sort_children_recursively_kind]
  rfl

/-- C5: every `ScanState.update` call increments `scanned_items` by exactly
one and exactly one of `dir_count`/`file_count`; consequently, starting from
the initial state, after any sequence of update calls (and hence at any
snapshot taken between lock-protected calls) `dir_count + file_count =
scanned_items`, and `scanned_items` is non-decreasing along the build pass. -/
theorem spec_c5_progress_counters :
    (∀ (s : ScanState) (p : String) (f : Bool) (z : Nat),
       (s.update p f z).scanned_items = s.scanned_items + 1 ∧
       (f = true → (s.update p f z).file_count = s.file_count + 1 ∧
                   (s.update p f z).dir_count = s.dir_count) ∧
       (f = false → (s.update p f z).dir_count = s.dir_count + 1 ∧
                    (s.update p f z).file_count = s.file_count))
    ∧ (∀ calls : List (String × Bool × Nat),
        (applyTrace calls ScanState.init).dir_count
          + (applyTrace calls ScanState.init).file_count
          = (applyTrace calls ScanState.init).scanned_items)
    ∧ (∀ calls extra : List (String × Bool × Nat),
        (applyTrace calls ScanState.init).scanned_items
          ≤ (applyTrace (calls ++ extra) ScanState.init).scanned_items)
    ∧ (∀ (calls : List (String × Bool × Nat))
         (tot sc dc fc ts : Nat) (cp : String) (dn : Bool),
        (applyTrace calls ScanState.init).get_state = (tot, sc, dc, fc, ts, cp, dn) →
        dc + fc = sc) := by
  have hstep : ∀ (s : ScanState) (p : String) (f : Bool) (z : Nat),
      (s.update p f z).scanned_items = s.scanned_items + 1 ∧
      (f = true → (s.update p f z).file_count = s.file_count + 1 ∧
                  (s.update p f z).dir_count = s.dir_count) ∧
      (f = false → (s.update p f z).dir_count = s.dir_count + 1 ∧
                   (s.update p f z).file_count = s.file_count) := by
    intro s p f z
    cases f <;> simp [ScanState.update]
  have hkey : ∀ (calls : List (String × Bool × Nat)) (s : ScanState),
      s.dir_count + s.file_count = s.scanned_items →
      (applyTrace calls s).dir_count + (applyTrace calls s).file_count
        = (applyTrace calls s).scanned_items := by
    intro calls
    induction calls with
    | nil => intro s h; exact h
    | cons c cs ih =>
      intro s h
      rw [show applyTrace (c :: cs) s = applyTrace cs (s.update c.1 c.2.1 c.2.2) from rfl]
      refine ih _ ?_
      rcases c with ⟨p, f, z⟩
      cases f <;> simp [ScanState.update] <;> omega
  have hmono : ∀ (extra : List (String × Bool × Nat)) (s : ScanState),
      s.scanned_items ≤ (applyTrace extra s).scanned_items := by
    intro extra
    induction extra with
    | nil => intro s; exact le_refl _
    | cons c cs ih =>
      intro s
      refine le_trans ?_ (ih (s.update c.1 c.2.1 c.2.2))
      rcases c with ⟨p, f, z⟩
      cases f <;> simp [ScanState.update]
  refine ⟨hstep, fun calls => hkey calls _ rfl, ?_, ?_⟩
  · intro calls extra
    rw [show applyTrace (calls ++ extra) ScanState.init
          = applyTrace extra (applyTrace calls ScanState.init) by
        simp [applyTrace, List.foldl_append]]
    exact hmono extra _
  · intro calls tot sc dc fc ts cp dn h
    simp only [ScanState.get_state, Prod.mk.injEq] at h
    obtain ⟨-, h2, h3, h4, -⟩ := h
    rw [← h2, ← h3, ← h4]
    exact hkey calls _ rfl

theorem spec_c5_progress_counters_witness :
    ((ScanState.init.update "/a" true 3).scanned_items
        = ScanState.init.scanned_items + 1) ∧
    ((ScanState.init.update "/a" true 3).file_count
        = ScanState.init.file_count + 1) ∧
    ((applyTrace [("/a", false, 0), ("/a/f", true, 7)] ScanState.init).dir_count
      + (applyTrace [("/a", false, 0), ("/a/f", true, 7)] ScanState.init).file_count
      = (applyTrace [("/a", false, 0), ("/a/f", true, 7)] ScanState.init).scanned_items) ∧
    (1 + 1 = 2) :=
  ⟨(spec_c5_progress_counters.1 ScanState.init "/a" true 3).1,
   ((spec_c5_progress_counters.1 ScanState.init "/a" true 3).2.1 rfl).1,
   spec_c5_progress_counters.2.1 [("/a", false, 0), ("/a/f", true, 7)],
   spec_c5_progress_counters.2.2.2 [("/a", false, 0), ("/a/f", true, 7)]
     0 2 1 1 7 "/a/f" false rfl⟩

/-- C6 as stated is false at its own example inputs: the `f"{size:6.2f}"`
field right-aligns the number to width 6, so `format_bytes 2048` is the
9-character string `"  2.00 KB"` (two leading spaces), not `"2.00 KB"`. -/
theorem spec_c6_cex :
    format_bytes 2048 ≠ "2.00 KB" ∧ format_bytes 2048 = "  2.00 KB" := by
  constructor
  · decide
  · decide

/-- C6 amended: the formatter returns `"N B"` (unpadded) for inputs below
1024, and otherwise repeatedly divides by 1024 labeling the value KB/MB/GB/TB
(and PB) with two decimal places in a width-6 right-aligned numeric field:
512 → `"512 B"`, 2048 → `"  2.00 KB"`, 5000000 → `"  4.77 MB"`. -/
theorem spec_c6_format_bytes :
    (∀ n : Nat, n < 1024 → format_bytes n = toString n ++ " B") ∧
    format_bytes 512 = "512 B" ∧
    format_bytes 2048 = "  2.00 KB" ∧
    format_bytes 5000000 = "  4.77 MB" := by
  refine ⟨?_, by decide, by decide, by decide⟩
  intro n h
  simp [format_bytes, h]

theorem spec_c6_format_bytes_witness :
    512 < 1024 ∧ format_bytes 512 = toString 512 ++ " B" :=
  ⟨by decide, spec_c6_format_bytes.1 512 (by decide)⟩

/-- C7 as stated is false: when `os.path.getsize` raises, the `try` block is
left before the node is constructed, so the file entry is omitted from the
tree entirely — here a lone failing file yields a parent with no children,
even though the entry was recorded in the progress counters with size 0. -/
theorem spec_c7_cex :
    (buildFileEntry "/r/f.txt" "f.txt" none [] ScanState.init).1 = [] ∧
    (buildFileEntry "/r/f.txt" "f.txt" none [] ScanState.init).2.file_count = 1 ∧
    (buildFileEntry "/r/f.txt" "f.txt" none [] ScanState.init).2.scanned_items = 1 :=
  ⟨rfl, rfl, rfl⟩

/-- C7 amended: for each file entry of the build pass, on a successful stat
exactly one TreeNode (with the stat size and the `.exe` heuristic) is
constructed and appended to the parent's children and the entry is recorded;
on a stat error no node is appended — the entry is only recorded in the
progress state with size 0 — and the walk continues (the step is total, so
the scan is never aborted). -/
theorem spec_c7_build_file_entry :
    ∀ (fp f : String) (cs : List TreeNode) (st : ScanState),
      (∀ z : Nat,
        (buildFileEntry fp f (some z) cs st).1
            = cs ++ [TreeNode.mk f .file z (is_executable_of f) []] ∧
        (buildFileEntry fp f (some z) cs st).1.length = cs.length + 1 ∧
        (buildFileEntry fp f (some z) cs st).2 = st.update fp true z) ∧
      ((buildFileEntry fp f none cs st).1 = cs ∧
       (buildFileEntry fp f none cs st).2 = st.update fp true 0) := by
  intro fp f cs st
  exact ⟨fun z => ⟨rfl, by simp [buildFileEntry], rfl⟩, rfl, rfl⟩

/-- C8 as stated is false: `set_done` unconditionally overwrites the stored
tree with its argument, so a second call with a different argument changes
the stored tree reference (here from `some` root to `none`). -/
theorem spec_c8_cex :
    ((ScanState.init.set_done (some (.mk "root" .directory 0 false []))).set_done none).tree
      ≠ (ScanState.init.set_done (some (.mk "root" .directory 0 false []))).tree := by
  simp [ScanState.set_done, ScanState.init]

/-- C8 amended: after `set_done`, `done` stays true under any further
`set_done`, but the stored tree becomes the second call's argument: the
second call is a no-op exactly when its argument equals the stored tree — in
particular re-passing the currently stored tree (which is what `main` does
with `state.set_done(state.tree)`) leaves the state unchanged. -/
theorem spec_c8_markdone :
    ∀ (s : ScanState) (t t' : Option TreeNode),
      ((s.set_done t).set_done t').done = true ∧
      (s.set_done t).set_done ((s.set_done t).tree) = s.set_done t ∧
      (((s.set_done t).set_done t' = s.set_done t) ↔ t' = t) := by
  intro s t t'
  cases s
  refine ⟨rfl, rfl, ?_⟩
  simp [ScanState.set_done]

/-- C9: each tick's progress fraction is `scanned/total` when `total > 0` and
`1.0` when `total = 0`; the computation always produces a value (`isSome`),
i.e. the zero-total branch never reaches the division. -/
theorem spec_c9_progress :
    ∀ scanned total : Nat,
      (progressOf scanned total).isSome = true ∧
      (0 < total →
        progressOf scanned total = some ((scanned : ℚ) / (total : ℚ))) ∧
      (total = 0 → progressOf scanned total = some 1) := by
  intro s t
  rcases Nat.eq_zero_or_pos t with rfl | h
  · exact ⟨by simp [progressOf], by simp, fun _ => by simp [progressOf]⟩
  · have ht : t ≠ 0 := by omega
    exact ⟨by simp [progressOf, checkedDiv, h, ht],
           fun _ => by simp [progressOf, checkedDiv, h, ht],
           fun h0 => absurd h0 ht⟩

theorem spec_c9_progress_witness :
    progressOf 7 0 = some 1 ∧ progressOf 3 2 = some ((3 : ℚ) / (2 : ℚ)) :=
  ⟨(spec_c9_progress 7 0).2.2 rfl, (spec_c9_progress 3 2).2.1 (by omega)⟩

/-! ## Tree navigator (`draw_tree_view`, lines 147-261)

The Python loop keeps `history` (a deque of aliased node references into one
mutable tree), `current_selection`, `scroll_top` and `sort_descending`.  We
represent the same state as the root tree plus the path of child indices from
the root to `history[-1]`; the in-place `children.sort` of the current node is
a functional rewrite of the tree at that path, which is exactly what every
alias in `history` observes.  `selection` is an `Int` because Python's
`min(len(children) - 1, sel + 1)` can produce `-1`. -/

inductive Key where
  | up
  | down
  | sortToggle
  | right
  | enter
  | left
  | hKey
  | quit
  | other
deriving DecidableEq

structure NavState where
  root : TreeNode
  path : List Nat
  selection : Int
  scrollTop : Int
  sortDescending : Bool

/-- `history = deque([tree]); current_selection = 0; scroll_top = 0;
sort_descending = True` (lines 167-170). -/
def initNav (tree : TreeNode) : NavState :=
  { root := tree, path := [], selection := 0, scrollTop := 0, sortDescending := true }

/-- Rewrite the element at index `i` (identity when out of range). -/
def modifyIdx : List TreeNode → Nat → (TreeNode → TreeNode) → List TreeNode
  | [], _, _ => []
  | x :: xs, 0, f => f x :: xs
  | x :: xs, i + 1, f => x :: modifyIdx xs i f

/-- The node reached from `t` by following child indices `p`
(`history[-1]` when `p` is the navigator's path). -/
def nodeAt : TreeNode → List Nat → Option TreeNode
  | t, [] => some t
  | t, i :: p =>
      match t.children[i]? with
      | some c => nodeAt c p
      | none => none

/-- Rewrite the node at path `p` in place (the functional image of mutating
the aliased node object). -/
def modifyAt : TreeNode → List Nat → (TreeNode → TreeNode) → TreeNode
  | t, [], f => f t
  | t, i :: p, f => setChildren t (modifyIdx t.children i (fun c => modifyAt c p f))

/-- The scroll correction run before rendering (lines 187-190); `h` is the
terminal height.  It touches only `scroll_top`. -/
def scrollFix (h : Int) (s : NavState) : NavState :=
  let st := if s.selection < s.scrollTop then s.selection else s.scrollTop
  let st2 := if s.selection ≥ st + h - 3 then s.selection - h + 4 else st
  { s with scrollTop := st2 }

/-- The key dispatch of the navigator loop (lines 239-261).  Python indexes
`children[current_selection]` only when `children` is non-empty, in which
case the loop invariant keeps `0 <= current_selection < len(children)`, so
the `none` fallback (which would be an `IndexError` in Python) is
unreachable from reachable states. -/
def handleKey (k : Key) (s : NavState) : NavState :=
  match nodeAt s.root s.path with
  | none => s
  | some cur =>
    let children := cur.children
    match k with
    | .up => { s with selection := max 0 (s.selection - 1) }
    | .down => { s with selection := min ((children.length : Int) - 1) (s.selection + 1) }
    | .sortToggle =>
        let d := !s.sortDescending
        { s with sortDescending := d,
                 root := modifyAt s.root s.path
                   (fun t => setChildren t (sortBySize d t.children)) }
    | .right | .enter =>
        if children.isEmpty then s
        else
          match children[s.selection.toNat]? with
          | none => s
          | some c =>
              if c.kind = .directory then
                { s with path := s.path ++ [s.selection.toNat],
                         selection := 0, scrollTop := 0, sortDescending := true }
              else s
    | .left | .hKey =>
        if s.path.isEmpty then s
        else { s with path := s.path.dropLast,
                      selection := 0, scrollTop := 0, sortDescending := true }
    | .quit | .other => s

/-- One iteration of the navigator loop: scroll correction, then key
handling. -/
def navStep (h : Int) (k : Key) (s : NavState) : NavState :=
  handleKey k (scrollFix h s)

/-- Run the loop over a whole key sequence. -/
def runKeys (h : Int) (ks : List Key) (s : NavState) : NavState :=
  ks.foldl (fun st k => navStep h k st) s

/-- `p` is an initial segment of `q` (our own notion, used to phrase which
paths a tree rewrite can touch). -/
def Under (p q : List Nat) : Prop := ∃ r, q = p ++ r

theorem under_nil (q : List Nat) : Under [] q := ⟨q, rfl⟩

theorem under_cons {i j : Nat} {p q : List Nat} :
    Under (i :: p) (j :: q) ↔ i = j ∧ Under p q := by
  constructor
  · rintro ⟨r, hr⟩
    rw [List.cons_append] at hr
    injection hr with h1 h2
    exact ⟨h1.symm, r, h2⟩
  · rintro ⟨rfl, r, hr⟩
    exact ⟨r, by rw [List.cons_append, hr]⟩

/-! ## Path lemmas -/

theorem modifyIdx_get (l : List TreeNode) (i j : Nat) (f : TreeNode → TreeNode) :
    (modifyIdx l i f)[j]? = if i = j then l[j]?.map f else l[j]? := by
  induction l generalizing i j with
  | nil => cases i <;> cases j <;> simp [modifyIdx]
  | cons x xs ih =>
    cases i with
    | zero => cases j <;> simp [modifyIdx]
    | succ i =>
      cases j with
      | zero => simp [modifyIdx]
      | succ j =>
        simp only [modifyIdx, List.getElem?_cons_succ, ih]
        by_cases h : i = j <;> simp [h]

theorem modifyIdx_length (l : List TreeNode) (i : Nat) (f : TreeNode → TreeNode) :
    (modifyIdx l i f).length = l.length := by
  induction l generalizing i with
  | nil => simp [modifyIdx]
  | cons x xs ih => cases i <;> simp [modifyIdx, ih]

theorem nodeAt_cons (t : TreeNode) (i : Nat) (p : List Nat) :
    nodeAt t (i :: p)
      = match t.children[i]? with
        | some c => nodeAt c p
        | none => none := rfl

theorem nodeAt_modifyAt_split (q rest : List Nat) (r : TreeNode)
    (f : TreeNode → TreeNode) :
    nodeAt (modifyAt r (q ++ rest) f) q = (nodeAt r q).map (fun u => modifyAt u rest f) := by
  induction q generalizing r with
  | nil => simp [nodeAt]
  | cons i q ih =>
    rw [List.cons_append]
    show nodeAt (setChildren r (modifyIdx r.children i
      (fun c => modifyAt c (q ++ rest) f))) (i :: q) = _
    rw [nodeAt_cons, nodeAt_cons, setChildren_children, modifyIdx_get, if_pos rfl]
    cases hc : r.children[i]? with
    | none => simp [hc]
    | some c => simp [hc, ih]

theorem nodeAt_modifyAt_self (r : TreeNode) (p : List Nat) (f : TreeNode → TreeNode) :
    nodeAt (modifyAt r p f) p = (nodeAt r p).map f := by
  have := nodeAt_modifyAt_split p [] r f
  simpa [modifyAt] using this

theorem nodeAt_modifyAt_far (p q : List Nat) (r : TreeNode) (f : TreeNode → TreeNode)
    (h1 : ¬ Under p q) (h2 : ¬ Under q p) :
    nodeAt (modifyAt r p f) q = nodeAt r q := by
  induction p generalizing q r with
  | nil => exact absurd (under_nil q) h1
  | cons i p ih =>
    cases q with
    | nil => exact absurd (under_nil (i :: p)) h2
    | cons j q =>
      show nodeAt (setChildren r (modifyIdx r.children i
        (fun c => modifyAt c p f))) (j :: q) = _
      rw [nodeAt_cons, nodeAt_cons, setChildren_children, modifyIdx_get]
      by_cases hij : i = j
      · subst hij
        rw [if_pos rfl]
        cases hc : r.children[i]? with
        | none => simp [hc]
        | some c =>
          have h1' : ¬ Under p q := fun hu => h1 (under_cons.mpr ⟨rfl, hu⟩)
          have h2' : ¬ Under q p := fun hu => h2 (under_cons.mpr ⟨rfl, hu⟩)
          simp [hc, ih q c h1' h2']
      · rw [if_neg hij]

theorem nodeAt_append (r : TreeNode) (p : List Nat) (i : Nat) :
    nodeAt r (p ++ [i]) = (nodeAt r p).bind (fun t => t.children[i]?) := by
  induction p generalizing r with
  | nil =>
    rw [List.nil_append, nodeAt_cons]
    cases hc : r.children[i]? <;> simp [hc, nodeAt]
  | cons j p ih =>
    rw [List.cons_append, nodeAt_cons, nodeAt_cons]
    cases hc : r.children[j]? with
    | none => simp [hc]
    | some c => simp [hc, ih]

/-! ## Navigator step lemmas -/

@[simp] theorem scrollFix_root (h : Int) (s : NavState) :
    (scrollFix h s).root = s.root := rfl

@[simp] theorem scrollFix_path (h : Int) (s : NavState) :
    (scrollFix h s).path = s.path := rfl

@[simp] theorem scrollFix_selection (h : Int) (s : NavState) :
    (scrollFix h s).selection = s.selection := rfl

@[simp] theorem scrollFix_sortDescending (h : Int) (s : NavState) :
    (scrollFix h s).sortDescending = s.sortDescending := rfl

theorem handleKey_up (s : NavState) (t : TreeNode)
    (ht : nodeAt s.root s.path = some t) :
    handleKey Key.up s = { s with selection := max 0 (s.selection - 1) } := by
  unfold handleKey
  rw [ht]

theorem handleKey_down (s : NavState) (t : TreeNode)
    (ht : nodeAt s.root s.path = some t) :
    handleKey Key.down s
      = { s with selection := min ((t.children.length : Int) - 1) (s.selection + 1) } := by
  unfold handleKey
  rw [ht]

theorem handleKey_sortToggle (s : NavState) (t : TreeNode)
    (ht : nodeAt s.root s.path = some t) :
    handleKey Key.sortToggle s
      = { s with sortDescending := !s.sortDescending,
                 root := modifyAt s.root s.path
                   (fun u => setChildren u (sortBySize (!s.sortDescending) u.children)) } := by
  unfold handleKey
  rw [ht]

theorem handleKey_drill (k : Key) (hk : k = Key.right ∨ k = Key.enter)
    (s : NavState) (t c : TreeNode)
    (ht : nodeAt s.root s.path = some t)
    (he : t.children.isEmpty = false)
    (hc : t.children[s.selection.toNat]? = some c)
    (hd : c.kind = .directory) :
    handleKey k s
      = { s with path := s.path ++ [s.selection.toNat],
                 selection := 0, scrollTop := 0, sortDescending := true } := by
  rcases hk with rfl | rfl <;>
  · unfold handleKey
    rw [ht]
    simp only [he, Bool.false_eq_true, if_false, hc, hd, if_pos]

theorem handleKey_back (k : Key) (hk : k = Key.left ∨ k = Key.hKey)
    (s : NavState) (t : TreeNode)
    (ht : nodeAt s.root s.path = some t)
    (hp : s.path.isEmpty = false) :
    handleKey k s
      = { s with path := s.path.dropLast,
                 selection := 0, scrollTop := 0, sortDescending := true } := by
  rcases hk with rfl | rfl <;>
  · unfold handleKey
    rw [ht]
    simp only [hp, Bool.false_eq_true, if_false]

theorem handleKey_root (k : Key) (s : NavState) (hk : k ≠ Key.sortToggle) :
    (handleKey k s).root = s.root := by
  unfold handleKey
  cases hn : nodeAt s.root s.path with
  | none => rfl
  | some cur =>
    cases k with
    | sortToggle => exact absurd rfl hk
    | up => rfl
    | down => rfl
    | right =>
      dsimp only
      split
      · rfl
      · cases cur.children[s.selection.toNat]? with
        | none => rfl
        | some c => by_cases hd : c.kind = .directory <;> simp [hd]
    | enter =>
      dsimp only
      split
      · rfl
      · cases cur.children[s.selection.toNat]? with
        | none => rfl
        | some c => by_cases hd : c.kind = .directory <;> simp [hd]
    | left =>
      dsimp only
      split
      · rfl
      · rfl
    | hKey =>
      dsimp only
      split
      · rfl
      · rfl
    | quit => rfl
    | other => rfl

/-- The navigator's selection invariant as the code actually maintains it:
the path is valid; with children present the selection is within
`[0, len-1]`; with an empty children list it is `0` or `-1` (pressing Down
in an empty directory computes `min(len(children)-1, sel+1) = -1`). -/
def navInv (s : NavState) : Prop :=
  ∃ t, nodeAt s.root s.path = some t ∧
    (t.children.isEmpty = true → s.selection = 0 ∨ s.selection = -1) ∧
    (t.children.isEmpty = false →
      0 ≤ s.selection ∧ s.selection < t.children.length)

theorem isEmpty_false_length_pos {l : List TreeNode} (h : l.isEmpty = false) :
    0 < l.length := by
  cases l with
  | nil => simp at h
  | cons x xs => simp

theorem isEmpty_true_length_zero {l : List TreeNode} (h : l.isEmpty = true) :
    l.length = 0 := by
  cases l with
  | nil => rfl
  | cons x xs => simp at h

theorem sortBySize_isEmpty (d : Bool) (l : List TreeNode) :
    (sortBySize d l).isEmpty = l.isEmpty := by
  have hlen := length_sortBySize d l
  cases l with
  | nil => rfl
  | cons x xs =>
    cases hsort : sortBySize d (x :: xs) with
    | nil => rw [hsort] at hlen; simp at hlen
    | cons y ys => simp

theorem handleKey_noop_quit_other (k : Key) (hk : k = Key.quit ∨ k = Key.other)
    (s : NavState) : handleKey k s = s := by
  rcases hk with rfl | rfl <;>
  · unfold handleKey
    cases nodeAt s.root s.path <;> rfl

theorem handleKey_back_noop (k : Key) (hk : k = Key.left ∨ k = Key.hKey)
    (s : NavState) (t : TreeNode)
    (ht : nodeAt s.root s.path = some t)
    (hp : s.path.isEmpty = true) : handleKey k s = s := by
  rcases hk with rfl | rfl <;>
  · unfold handleKey
    rw [ht]
    simp only [hp, if_true]

theorem handleKey_drill_noop_empty (k : Key) (hk : k = Key.right ∨ k = Key.enter)
    (s : NavState) (t : TreeNode)
    (ht : nodeAt s.root s.path = some t)
    (he : t.children.isEmpty = true) : handleKey k s = s := by
  rcases hk with rfl | rfl <;>
  · unfold handleKey
    rw [ht]
    simp only [he, if_true]

theorem handleKey_drill_noop_none (k : Key) (hk : k = Key.right ∨ k = Key.enter)
    (s : NavState) (t : TreeNode)
    (ht : nodeAt s.root s.path = some t)
    (he : t.children.isEmpty = false)
    (hc : t.children[s.selection.toNat]? = none) : handleKey k s = s := by
  rcases hk with rfl | rfl <;>
  · unfold handleKey
    rw [ht]
    simp only [he, Bool.false_eq_true, if_false, hc]

theorem handleKey_drill_noop_file (k : Key) (hk : k = Key.right ∨ k = Key.enter)
    (s : NavState) (t c : TreeNode)
    (ht : nodeAt s.root s.path = some t)
    (he : t.children.isEmpty = false)
    (hc : t.children[s.selection.toNat]? = some c)
    (hd : ¬ c.kind = .directory) : handleKey k s = s := by
  rcases hk with rfl | rfl <;>
  · unfold handleKey
    rw [ht]
    simp only [he, Bool.false_eq_true, if_false, hc, hd]

theorem navInv_init (tree : TreeNode) : navInv (initNav tree) := by
  refine ⟨tree, rfl, fun _ => Or.inl rfl, fun h => ?_⟩
  have := isEmpty_false_length_pos h
  dsimp only [initNav]
  omega

theorem navInv_of_state (s : NavState) (t : TreeNode)
    (ht : nodeAt s.root s.path = some t)
    (hemp : t.children.isEmpty = true → s.selection = 0 ∨ s.selection = -1)
    (hne : t.children.isEmpty = false →
      0 ≤ s.selection ∧ s.selection < t.children.length) : navInv s :=
  ⟨t, ht, hemp, hne⟩

theorem navStep_inv (h : Int) (k : Key) (s : NavState) (hs : navInv s) :
    navInv (navStep h k s) := by
  obtain ⟨t, ht, hemp, hne⟩ := hs
  have ht' : nodeAt (scrollFix h s).root (scrollFix h s).path = some t := ht
  have hsame : navInv (scrollFix h s) := ⟨t, ht', hemp, hne⟩
  unfold navStep
  cases k with
  | up =>
    rw [handleKey_up _ t ht']
    refine ⟨t, ht, fun he => ?_, fun he => ?_⟩
    · rcases hemp he with h0 | h0 <;>
      · left; dsimp only [scrollFix]; omega
    · have := hne he
      have hp := isEmpty_false_length_pos he
      dsimp only [scrollFix]
      omega
  | down =>
    rw [handleKey_down _ t ht']
    refine ⟨t, ht, fun he => ?_, fun he => ?_⟩
    · have h0 := isEmpty_true_length_zero he
      rcases hemp he with h1 | h1 <;>
      · right; dsimp only [scrollFix]; omega
    · have := hne he
      have hp := isEmpty_false_length_pos he
      dsimp only [scrollFix]
      omega
  | sortToggle =>
    rw [handleKey_sortToggle _ t ht']
    refine ⟨setChildren t (sortBySize (!s.sortDescending) t.children), ?_, ?_, ?_⟩
    · show nodeAt (modifyAt s.root s.path _) s.path = _
      rw [nodeAt_modifyAt_self, ht, Option.map_some']
      rfl
    · intro he
      rw [setChildren_children, sortBySize_isEmpty] at he
      dsimp only [scrollFix]
      exact hemp he
    · intro he
      rw [setChildren_children, sortBySize_isEmpty] at he
      rw [setChildren_children, length_sortBySize]
      dsimp only [scrollFix]
      exact hne he
  | right =>
    rcases he : t.children.isEmpty with hv | hv
    · rcases hc : t.children[s.selection.toNat]? with _ | c
      · rw [handleKey_drill_noop_none Key.right (Or.inl rfl) _ t ht' he hc]
        exact hsame
      · by_cases hd : c.kind = .directory
        · rw [handleKey_drill Key.right (Or.inl rfl) _ t c ht' he hc hd]
          refine ⟨c, ?_, fun _ => Or.inl rfl, fun hce => ?_⟩
          · show nodeAt s.root (s.path ++ [s.selection.toNat]) = some c
            rw [nodeAt_append, ht, Option.some_bind, hc]
          · have := isEmpty_false_length_pos hce
            dsimp only
            omega
        · rw [handleKey_drill_noop_file Key.right (Or.inl rfl) _ t c ht' he hc hd]
          exact hsame
    · rw [handleKey_drill_noop_empty Key.right (Or.inl rfl) _ t ht' he]
      exact hsame
  | enter =>
    rcases he : t.children.isEmpty with hv | hv
    · rcases hc : t.children[s.selection.toNat]? with _ | c
      · rw [handleKey_drill_noop_none Key.enter (Or.inr rfl) _ t ht' he hc]
        exact hsame
      · by_cases hd : c.kind = .directory
        · rw [handleKey_drill Key.enter (Or.inr rfl) _ t c ht' he hc hd]
          refine ⟨c, ?_, fun _ => Or.inl rfl, fun hce => ?_⟩
          · show nodeAt s.root (s.path ++ [s.selection.toNat]) = some c
            rw [nodeAt_append, ht, Option.some_bind, hc]
          · have := isEmpty_false_length_pos hce
            dsimp only
            omega
        · rw [handleKey_drill_noop_file Key.enter (Or.inr rfl) _ t c ht' he hc hd]
          exact hsame
    · rw [handleKey_drill_noop_empty Key.enter (Or.inr rfl) _ t ht' he]
      exact hsame
  | left =>
    rcases hp : s.path.isEmpty with hv | hv
    · rw [handleKey_back Key.left (Or.inl rfl) _ t ht' hp]
      have hne' : s.path ≠ [] := by
        cases sp : s.path
        · rw [sp] at hp; simp at hp
        · simp
      obtain ⟨q, i, hqi⟩ : ∃ q i, s.path = q ++ [i] :=
        ⟨s.path.dropLast, s.path.getLast hne',
         (List.dropLast_append_getLast hne').symm⟩
      have hdrop : s.path.dropLast = q := by rw [hqi]; simp
      rw [hqi, nodeAt_append] at ht
      cases hq : nodeAt s.root q with
      | none => rw [hq] at ht; simp at ht
      | some u =>
        refine ⟨u, ?_, fun _ => Or.inl rfl, fun hce => ?_⟩
        · show nodeAt s.root s.path.dropLast = some u
          rw [hdrop, hq]
        · have := isEmpty_false_length_pos hce
          dsimp only
          omega
    · rw [handleKey_back_noop Key.left (Or.inl rfl) _ t ht' hp]
      exact hsame
  | hKey =>
    rcases hp : s.path.isEmpty with hv | hv
    · rw [handleKey_back Key.hKey (Or.inr rfl) _ t ht' hp]
      have hne' : s.path ≠ [] := by
        cases sp : s.path
        · rw [sp] at hp; simp at hp
        · simp
      obtain ⟨q, i, hqi⟩ : ∃ q i, s.path = q ++ [i] :=
        ⟨s.path.dropLast, s.path.getLast hne',
         (List.dropLast_append_getLast hne').symm⟩
      have hdrop : s.path.dropLast = q := by rw [hqi]; simp
      rw [hqi, nodeAt_append] at ht
      cases hq : nodeAt s.root q with
      | none => rw [hq] at ht; simp at ht
      | some u =>
        refine ⟨u, ?_, fun _ => Or.inl rfl, fun hce => ?_⟩
        · show nodeAt s.root s.path.dropLast = some u
          rw [hdrop, hq]
        · have := isEmpty_false_length_pos hce
          dsimp only
          omega
    · rw [handleKey_back_noop Key.hKey (Or.inr rfl) _ t ht' hp]
      exact hsame
  | quit =>
    rw [handleKey_noop_quit_other Key.quit (Or.inl rfl)]
    exact hsame
  | other =>
    rw [handleKey_noop_quit_other Key.other (Or.inr rfl)]
    exact hsame

/-- C3 as stated is false: drilling nowhere, in a childless root directory a
single Down key gives `current_selection = min(len(children)-1, 0+1) = -1`,
while the claim requires selection to be 0 whenever the children list is
empty. -/
theorem spec_c3_cex :
    ((navStep 24 Key.down (initNav (.mk "root" .directory 0 false []))).selection = -1) ∧
    ((navStep 24 Key.down (initNav (.mk "root" .directory 0 false []))).selection ≠ 0) ∧
    ((nodeAt (navStep 24 Key.down (initNav (.mk "root" .directory 0 false []))).root
        (navStep 24 Key.down (initNav (.mk "root" .directory 0 false []))).path).map
        (fun t => t.children.isEmpty) = some true) := by
  refine ⟨by decide, by decide, by decide⟩

/-- C3 amended: in every state reachable by the navigator loop from its
initial state, the path is valid and the selection lies in
`[0, len(children)-1]` whenever the current children list is non-empty; when
it is empty the selection is `0` or `-1` (Down yields `-1`, Up restores `0`).
Up and Down move the selection by one, clamped exactly as the code does:
`max(0, sel-1)` and `min(len(children)-1, sel+1)`. -/
theorem spec_c3_selection_invariant :
    (∀ (h : Int) (tree : TreeNode) (ks : List Key),
        navInv (runKeys h ks (initNav tree)))
    ∧ (∀ (h : Int) (s : NavState) (t : TreeNode),
        nodeAt s.root s.path = some t →
          (navStep h Key.up s).selection = max 0 (s.selection - 1) ∧
          (navStep h Key.down s).selection
            = min ((t.children.length : Int) - 1) (s.selection + 1)) := by
  constructor
  · intro h tree ks
    have : ∀ (ks : List Key) (s : NavState), navInv s → navInv (runKeys h ks s) := by
      intro ks
      induction ks with
      | nil => intro s hs; exact hs
      | cons k ks ih =>
        intro s hs
        exact ih _ (navStep_inv h k s hs)
    exact this ks _ (navInv_init tree)
  · intro h s t ht
    have ht' : nodeAt (scrollFix h s).root (scrollFix h s).path = some t := ht
    constructor
    · show (handleKey Key.up (scrollFix h s)).selection = _
      rw [handleKey_up _ t ht']
      rfl
    · show (handleKey Key.down (scrollFix h s)).selection = _
      rw [handleKey_down _ t ht']
      rfl

/-- A small two-level tree used to exercise the navigator theorems. -/
def c3tree : TreeNode :=
  .mk "root" .directory 12 false
    [.mk "d" .directory 7 false [.mk "y" .file 7 false []],
     .mk "z.txt" .file 5 false []]

theorem spec_c3_selection_invariant_witness :
    navInv (runKeys 24 [Key.down, Key.right, Key.sortToggle, Key.left, Key.up]
      (initNav c3tree)) ∧
    (navStep 24 Key.up (initNav c3tree)).selection
      = max 0 ((initNav c3tree).selection - 1) ∧
    (navStep 24 Key.down (initNav c3tree)).selection
      = min ((c3tree.children.length : Int) - 1) ((initNav c3tree).selection + 1) :=
  ⟨spec_c3_selection_invariant.1 24 c3tree
      [Key.down, Key.right, Key.sortToggle, Key.left, Key.up],
   (spec_c3_selection_invariant.2 24 (initNav c3tree) c3tree rfl).1,
   (spec_c3_selection_invariant.2 24 (initNav c3tree) c3tree rfl).2⟩

/-- Tree used for the drill-in/drill-out claims: the root's children are in
descending order [file 10, directory 5] as the builder leaves them. -/
def c4tree : TreeNode :=
  .mk "root" .directory 15 false
    [.mk "b.txt" .file 10 false [],
     .mk "A" .directory 5 false [.mk "x" .file 5 false []]]

/-- C4 as stated is false: after toggling the sort to ascending ('s'), the
selected child is the directory `A`; drilling in and immediately out returns
to the root with its children still in ascending size order [5, 10] (drill-in
resets only the `sort_descending` flag and never re-sorts), contradicting
"restored to the default descending-by-size sort order". -/
theorem spec_c4_cex :
    ((navStep 24 Key.left (navStep 24 Key.right (navStep 24 Key.sortToggle
        (initNav c4tree)))).root.children.map TreeNode.size = [5, 10]) ∧
    ((navStep 24 Key.left (navStep 24 Key.right (navStep 24 Key.sortToggle
        (initNav c4tree)))).path = []) ∧
    ((navStep 24 Key.left (navStep 24 Key.right (navStep 24 Key.sortToggle
        (initNav c4tree)))).sortDescending = true) ∧
    ¬ List.Chain' (fun a b => b.size ≤ a.size)
        ((navStep 24 Key.left (navStep 24 Key.right (navStep 24 Key.sortToggle
          (initNav c4tree)))).root.children) := by
  refine ⟨by decide, by decide, by decide, ?_⟩
  intro hch
  have hm : ((navStep 24 Key.left (navStep 24 Key.right (navStep 24 Key.sortToggle
      (initNav c4tree)))).root.children.map TreeNode.size) = [5, 10] := by decide
  have h2 : List.Chain' (fun x y : Nat => y ≤ x)
      (List.map TreeNode.size ((navStep 24 Key.left (navStep 24 Key.right
        (navStep 24 Key.sortToggle (initNav c4tree)))).root.children)) :=
    (List.chain'_map TreeNode.size).mpr hch
  rw [hm] at h2
  rw [List.chain'_cons] at h2
  exact absurd h2.1 (by omega)

/-- C4 amended: from any navigation state whose selected child is a
Directory, drill-in followed immediately by drill-out returns to the same
parent directory (same tree, same path, hence the same full children list in
the same order as immediately before the drill-in — which is the default
descending order only if it already was, since drill-in re-sorts nothing and
only resets the flag), with selection and scroll reset to 0 and
`sort_descending` reset to true. -/
theorem spec_c4_drill_roundtrip :
    ∀ (h h2 : Int) (s : NavState) (t c : TreeNode),
      nodeAt s.root s.path = some t →
      t.children.isEmpty = false →
      t.children[s.selection.toNat]? = some c →
      c.kind = .directory →
      (navStep h2 Key.left (navStep h Key.right s)).root = s.root ∧
      (navStep h2 Key.left (navStep h Key.right s)).path = s.path ∧
      nodeAt (navStep h2 Key.left (navStep h Key.right s)).root
        (navStep h2 Key.left (navStep h Key.right s)).path = some t ∧
      (navStep h2 Key.left (navStep h Key.right s)).selection = 0 ∧
      (navStep h2 Key.left (navStep h Key.right s)).scrollTop = 0 ∧
      (navStep h2 Key.left (navStep h Key.right s)).sortDescending = true := by
  intro h h2 s t c ht he hc hd
  have ht' : nodeAt (scrollFix h s).root (scrollFix h s).path = some t := ht
  have hstep1 : navStep h Key.right s
      = { scrollFix h s with
          path := (scrollFix h s).path ++ [(scrollFix h s).selection.toNat],
          selection := 0, scrollTop := 0, sortDescending := true } :=
    handleKey_drill Key.right (Or.inl rfl) (scrollFix h s) t c ht' he hc hd
  have hc2 : nodeAt (scrollFix h2 (navStep h Key.right s)).root
      (scrollFix h2 (navStep h Key.right s)).path = some c := by
    rw [hstep1]
    show nodeAt s.root (s.path ++ [s.selection.toNat]) = some c
    rw [nodeAt_append, ht, Option.some_bind, hc]
  have hp2 : (scrollFix h2 (navStep h Key.right s)).path.isEmpty = false := by
    rw [hstep1]
    show (s.path ++ [s.selection.toNat]).isEmpty = false
    simp
  have hstep2 : navStep h2 Key.left (navStep h Key.right s)
      = { scrollFix h2 (navStep h Key.right s) with
          path := (scrollFix h2 (navStep h Key.right s)).path.dropLast,
          selection := 0, scrollTop := 0, sortDescending := true } :=
    handleKey_back Key.left (Or.inl rfl) (scrollFix h2 (navStep h Key.right s)) c hc2 hp2
  have hroot : (scrollFix h2 (navStep h Key.right s)).root = s.root := by
    rw [hstep1]
    rfl
  have hpath : (scrollFix h2 (navStep h Key.right s)).path.dropLast = s.path := by
    rw [hstep1]
    show (s.path ++ [s.selection.toNat]).dropLast = s.path
    simp
  rw [hstep2]
  refine ⟨hroot, hpath, ?_, rfl, rfl, rfl⟩
  show nodeAt (scrollFix h2 (navStep h Key.right s)).root
      ((scrollFix h2 (navStep h Key.right s)).path.dropLast) = some t
  rw [hroot, hpath]
  exact ht

/-- A navigation state at the root of `c4tree` with the directory child
selected. -/
def c4state : NavState :=
  { root := c4tree, path := [], selection := 1, scrollTop := 0,
    sortDescending := true }

theorem spec_c4_drill_roundtrip_witness :
    (nodeAt c4state.root c4state.path = some c4tree) ∧
    (c4tree.children.isEmpty = false) ∧
    ((navStep 30 Key.left (navStep 24 Key.right c4state)).root = c4state.root ∧
     (navStep 30 Key.left (navStep 24 Key.right c4state)).path = c4state.path ∧
     nodeAt (navStep 30 Key.left (navStep 24 Key.right c4state)).root
       (navStep 30 Key.left (navStep 24 Key.right c4state)).path = some c4tree ∧
     (navStep 30 Key.left (navStep 24 Key.right c4state)).selection = 0 ∧
     (navStep 30 Key.left (navStep 24 Key.right c4state)).scrollTop = 0 ∧
     (navStep 30 Key.left (navStep 24 Key.right c4state)).sortDescending = true) :=
  ⟨rfl, rfl,
   spec_c4_drill_roundtrip 24 30 c4state
     c4tree (.mk "A" .directory 5 false [.mk "x" .file 5 false []])
     rfl rfl rfl rfl⟩

/-- C10: handling any key other than the sort toggle leaves the tree
untouched (`root` is unchanged, so no TreeNode is mutated); the sort toggle
replaces only the current directory's children sequence by a permutation of
itself (the stable sort), keeps that node's `name`/`kind`/`size`/
`is_executable`, leaves every node on a diverging path untouched, and leaves
each ancestor with the same fields, the same number of children, and the
same child at every index off the drill path. -/
theorem spec_c10_frame :
    (∀ (h : Int) (k : Key) (s : NavState), k ≠ Key.sortToggle →
        (navStep h k s).root = s.root)
    ∧ (∀ (h : Int) (s : NavState) (t : TreeNode),
        nodeAt s.root s.path = some t →
        (nodeAt (navStep h Key.sortToggle s).root s.path
            = some (setChildren t (sortBySize (!s.sortDescending) t.children))) ∧
        (sortBySize (!s.sortDescending) t.children).Perm t.children ∧
        (∀ q, ¬ Under s.path q → ¬ Under q s.path →
            nodeAt (navStep h Key.sortToggle s).root q = nodeAt s.root q) ∧
        (∀ (q : List Nat) (i : Nat) (rest : List Nat), s.path = q ++ i :: rest →
          ∀ u, nodeAt s.root q = some u →
            ∃ u', nodeAt (navStep h Key.sortToggle s).root q = some u' ∧
              u'.name = u.name ∧ u'.kind = u.kind ∧ u'.size = u.size ∧
              u'.is_executable = u.is_executable ∧
              u'.children.length = u.children.length ∧
              (∀ j : Nat, j ≠ i → u'.children[j]? = u.children[j]?))) := by
  constructor
  · intro h k s hk
    exact handleKey_root k (scrollFix h s) hk
  · intro h s t ht
    have ht' : nodeAt (scrollFix h s).root (scrollFix h s).path = some t := ht
    have hstep := handleKey_sortToggle (scrollFix h s) t ht'
    have hroot : (navStep h Key.sortToggle s).root
        = modifyAt s.root s.path
            (fun u => setChildren u (sortBySize (!s.sortDescending) u.children)) := by
      show (handleKey Key.sortToggle (scrollFix h s)).root = _
      rw [hstep]
      rfl
    refine ⟨?_, sortBySize_perm _ _, ?_, ?_⟩
    · rw [hroot, nodeAt_modifyAt_self, ht, Option.map_some']
    · intro q h1 h2
      rw [hroot]
      exact nodeAt_modifyAt_far _ _ _ _ h1 h2
    · intro q i rest hsp u hu
      refine ⟨modifyAt u (i :: rest)
        (fun v => setChildren v (sortBySize (!s.sortDescending) v.children)), ?_, ?_, ?_, ?_, ?_, ?_, ?_⟩
      · rw [hroot, hsp, nodeAt_modifyAt_split, hu, Option.map_some']
      · show (setChildren u (modifyIdx u.children i _)).name = u.name
        rw [setChildren_name]
      · show (setChildren u (modifyIdx u.children i _)).kind = u.kind
        rw [setChildren_kind]
      · show (setChildren u (modifyIdx u.children i _)).size = u.size
        rw [setChildren_size]
      · show (setChildren u (modifyIdx u.children i _)).is_executable = u.is_executable
        rw [setChildren_is_executable]
      · show (setChildren u (modifyIdx u.children i _)).children.length = u.children.length
        rw [setChildren_children, modifyIdx_length]
      · intro j hj
        show (setChildren u (modifyIdx u.children i _)).children[j]? = u.children[j]?
        rw [setChildren_children, modifyIdx_get, if_neg (fun hh => hj hh.symm)]

/-- State used to instantiate the frame theorem: inside directory `d` of a
two-level tree. -/
def c10tree : TreeNode :=
  .mk "root" .directory 9 false
    [.mk "d" .directory 4 false [.mk "w" .file 4 false []],
     .mk "f.txt" .file 5 false []]

def c10state : NavState :=
  { root := c10tree, path := [0], selection := 0, scrollTop := 0,
    sortDescending := true }

theorem spec_c10_frame_witness :
    ((navStep 24 Key.up c10state).root = c10state.root) ∧
    (nodeAt c10state.root c10state.path
        = some (.mk "d" .directory 4 false [.mk "w" .file 4 false []])) ∧
    (nodeAt (navStep 24 Key.sortToggle c10state).root c10state.path
        = some (setChildren (.mk "d" .directory 4 false [.mk "w" .file 4 false []])
            (sortBySize (!c10state.sortDescending)
              (TreeNode.mk "d" .directory 4 false
                [.mk "w" .file 4 false []]).children))) :=
  ⟨spec_c10_frame.1 24 Key.up c10state (by decide),
   rfl,
   (spec_c10_frame.2 24 c10state
      (.mk "d" .directory 4 false [.mk "w" .file 4 false []]) rfl).1⟩
